import Mathlib

/-!
Verification of `xgen-explicit-paths/XGen_ExplicitPaths.py`.

The script walks the XGen scene hierarchy (collections → descriptions →
objects → attributes) and toggles path attributes between an explicit
absolute form and a placeholder-relative form by plain string substitution.
This file embeds the string primitives the script relies on (Python's
`str.replace` and the `in` substring test), the scene data model, and the
`_zspc_xgen_paths_run` operation, and proves the specified properties.
-/

set_option autoImplicit false

namespace XGenExplicitPaths

/-! ### Python string primitives -/

/-- `startsWithL pat s` is `true` iff `pat` is a prefix of `s`
(character-list level). -/
def startsWithL : List Char → List Char → Bool
  | [], _ => true
  | _ :: _, [] => false
  | p :: ps, c :: cs => if p = c then startsWithL ps cs else false

/-- `containsSub s sub` models Python's `sub in s` substring test. -/
def containsSub : List Char → List Char → Bool
  | [], sub => startsWithL sub []
  | c :: rest, sub => startsWithL sub (c :: rest) || containsSub rest sub

/-- Number of positions of `s` at which `sub` occurs (all suffix positions,
including the empty suffix). -/
def countOcc (sub : List Char) : List Char → Nat
  | [] => if startsWithL sub [] then 1 else 0
  | c :: rest => (if startsWithL sub (c :: rest) then 1 else 0) + countOcc sub rest

/-- One-character-at-a-time scanner for the replacement: with `skip = 0` it
looks for a match of `old` at the current position, emits `new` and starts
skipping the remaining `old.length - 1` matched characters when it finds
one, and copies the character otherwise. Structural recursion on the
scanned list. -/
def replaceAux (old new : List Char) : Nat → List Char → List Char
  | _, [] => []
  | k + 1, _ :: rest => replaceAux old new k rest
  | 0, c :: rest =>
    if startsWithL old (c :: rest) then
      new ++ replaceAux old new (old.length - 1) rest
    else
      c :: replaceAux old new 0 rest

/-- Left-to-right, non-overlapping replacement of a non-empty pattern `old`
by `new`, as Python's `str.replace` performs for a non-empty pattern. -/
def replaceNE (old new : List Char) (s : List Char) : List Char :=
  replaceAux old new 0 s

/-- Python's `s.replace(old, new)`: every non-overlapping occurrence of
`old` in `s` is replaced by `new`, scanning left to right; for the empty
pattern Python inserts `new` before every character and at the end. -/
def pyReplace (s old new : String) : String :=
  if old.data = [] then
    ⟨s.data.foldr (fun c acc => new.data ++ (c :: acc)) new.data⟩
  else
    ⟨replaceNE old.data new.data s.data⟩

/-- Python's `needle in haystack` substring test on strings. -/
def pyIn (needle haystack : String) : Bool :=
  containsSub haystack.data needle.data

/-- Number of occurrences (all positions) of `needle` in `haystack`. -/
def countOccStr (needle haystack : String) : Nat :=
  countOcc needle.data haystack.data

/-! ### Dynamic (Python-typed) values and errors -/

/-- A Python runtime value, as far as the script's arguments require:
either a `str` or one of the non-string values a caller could pass. -/
inductive PyValue where
  | str (s : String)
  | intVal (n : Int)
  | boolVal (b : Bool)
  | noneVal
deriving DecidableEq, Repr

/-- The Python exceptions the script can raise before touching the scene. -/
inductive PyError where
  | typeError
  | indexError
  | valueError
deriving DecidableEq, Repr

/-- `_path_to_forward_slashes` (source lines 21–31): every backslash of the
input is turned into a forward slash (a character-wise map, as the list
comprehension joined by `''.join`). -/
def path_to_forward_slashes (in_path : String) : String :=
  ⟨in_path.data.map (fun c => if c = '\\' then '/' else c)⟩

/-- `_path_to_forward_slashes` on a dynamic argument: the guard
`type(in_path) is not str` raises `TypeError` on every non-string value
(source lines 29–30). -/
def path_to_forward_slashes_dyn : PyValue → Except PyError String
  | .str s => .ok (path_to_forward_slashes s)
  | _ => .error .typeError

/-- Source lines 129–130: forward-slash conversion followed by trailing-slash
enforcement via `root_path[-1]`, which indexes the last character and is
undefined (Python `IndexError`) on the empty string; hence the `Option`. -/
def normalizeRoot (project_path : String) : Option String :=
  let root := path_to_forward_slashes project_path
  match root.data.getLast? with
  | none => none
  | some c => some (if c = '/' then root else root ++ "/")

/-! ### Mode -/

/-- `_ZspcXgenPathsMode` (source lines 33–41). -/
inductive Mode where
  | EXPLICIT
  | RELATIVE
deriving DecidableEq, Repr

/-- The `mode` argument as received: either an enum member or a plain `int`
(source line 135 checks `isinstance(mode, int)`). -/
inductive ModeArg where
  | enumMode (m : Mode)
  | intMode (n : Int)
deriving DecidableEq, Repr

/-- Source lines 134–136: an `int` argument is converted through the enum
constructor `_ZspcXgenPathsMode(mode)`, which maps 0 to `EXPLICIT`, 1 to
`RELATIVE` and raises `ValueError` (here `none`) on any other integer; an
enum argument is kept as is. -/
def resolveMode : ModeArg → Option Mode
  | .enumMode m => some m
  | .intMode n =>
    if n = 0 then some Mode.EXPLICIT
    else if n = 1 then some Mode.RELATIVE
    else none

/-! ### Scene data model -/

/-- An XGen object (e.g. SplinePrimitives): its attributes as returned by
`xg.allAttrs`, each with a string value (`xg.getAttr`). -/
structure XObject where
  name : String
  attrs : List (String × String)
deriving DecidableEq, Repr

/-- An XGen description, holding its active objects. -/
structure XDescription where
  name : String
  objects : List XObject
deriving DecidableEq, Repr

/-- An XGen collection (palette): its `xgDataPath` attribute and its
descriptions. -/
structure XCollection where
  name : String
  xgDataPath : String
  descriptions : List XDescription
deriving DecidableEq, Repr

/-- The host state the script sees: the `xgg.Maya` availability flag and the
loaded collections (`xg.palettes()`). -/
structure Scene where
  xggMaya : Bool
  collections : List XCollection
deriving DecidableEq, Repr

/-- One `xg.setAttr` call, in the argument order of the source:
`xg.setAttr("xgDataPath", value, collection)` at collection level,
`xg.setAttr(attr, value, collection, description, object)` at object level. -/
inductive WriteEvent where
  | collWrite (value : String) (collection : String)
  | objWrite (attr value collection description obj : String)
deriving DecidableEq, Repr

/-- Whether a write event is a collection-level `xgDataPath` write. -/
def WriteEvent.isCollWrite : WriteEvent → Bool
  | .collWrite _ _ => true
  | .objWrite _ _ _ _ _ => false

/-- Whether a write event is an object-level attribute write. -/
def WriteEvent.isObjWrite : WriteEvent → Bool
  | .collWrite _ _ => false
  | .objWrite _ _ _ _ _ => true

/-! ### The run operation (source lines 119–181) -/

/-- The `"${DESC}"` placeholder (source line 131). -/
def descriptionExpressionString : String := "${DESC}"

/-- The `"${PROJECT}"` placeholder (source line 132). -/
def projectExpressionString : String := "${PROJECT}"

/-- Source line 167: `path = root_path + "xGen/collections/" + collection
+ "/" + description`. -/
def mkPath (root_path collection description : String) : String :=
  root_path ++ "xGen/collections/" ++ collection ++ "/" ++ description

/-- Source lines 166–177 for one attribute value: skip the value unless it
contains the mode's search string (the computed path in `RELATIVE` mode,
`"${DESC}"` in `EXPLICIT` mode), otherwise substitute. -/
def newAttrValue (m : Mode) (root_path collection description value : String) : String :=
  let path := mkPath root_path collection description
  let search := if m = Mode.RELATIVE then path else descriptionExpressionString
  if pyIn search value then
    match m with
    | Mode.EXPLICIT => pyReplace value descriptionExpressionString path
    | Mode.RELATIVE => pyReplace value path descriptionExpressionString
  else value

/-- The guard of source line 169: whether the attribute value contains the
mode's search string, hence whether `xg.setAttr` is reached for it. -/
def attrWritten (m : Mode) (root_path collection description value : String) : Bool :=
  pyIn (if m = Mode.RELATIVE then mkPath root_path collection description
        else descriptionExpressionString) value

/-- Source lines 147–153 for the collection-level `xgDataPath` value:
`EXPLICIT` replaces `"${PROJECT}"` by the root path, `RELATIVE` replaces the
root path by `"${PROJECT}"`; the write is unconditional. -/
def newCollectionPath (m : Mode) (root_path value : String) : String :=
  match m with
  | Mode.EXPLICIT => pyReplace value projectExpressionString root_path
  | Mode.RELATIVE => pyReplace value root_path projectExpressionString

/-- List concatenation of per-element lists (iteration order of the nested
`for` loops). -/
def flatMapL {α β : Type} (f : α → List β) : List α → List β
  | [] => []
  | a :: as => f a ++ flatMapL f as

/-- The attribute rewriting pass over one object. -/
def processObject (m : Mode) (root_path collection description : String)
    (o : XObject) : XObject :=
  ⟨o.name, o.attrs.map (fun av => (av.1, newAttrValue m root_path collection description av.2))⟩

/-- The `xg.setAttr` calls issued while processing one object, in order. -/
def objectWrites (m : Mode) (root_path collection description : String)
    (o : XObject) : List WriteEvent :=
  (o.attrs.filter (fun av => attrWritten m root_path collection description av.2)).map
    (fun av => .objWrite av.1 (newAttrValue m root_path collection description av.2)
      collection description o.name)

/-- The attribute rewriting pass over one description. -/
def processDescription (m : Mode) (root_path collection : String)
    (d : XDescription) : XDescription :=
  ⟨d.name, d.objects.map (processObject m root_path collection d.name)⟩

/-- The `xg.setAttr` calls issued while processing one description. -/
def descriptionWrites (m : Mode) (root_path collection : String)
    (d : XDescription) : List WriteEvent :=
  flatMapL (objectWrites m root_path collection d.name) d.objects

/-- The rewriting pass over one collection: the unconditional `xgDataPath`
rewrite followed by the per-description passes (source lines 146–177). -/
def processCollection (m : Mode) (root_path : String) (c : XCollection) : XCollection :=
  ⟨c.name, newCollectionPath m root_path c.xgDataPath,
    c.descriptions.map (processDescription m root_path c.name)⟩

/-- The `xg.setAttr` calls issued while processing one collection. -/
def collectionWrites (m : Mode) (root_path : String) (c : XCollection) : List WriteEvent :=
  .collWrite (newCollectionPath m root_path c.xgDataPath) c.name ::
    flatMapL (descriptionWrites m root_path c.name) c.descriptions

/-- The full scene rewrite of a successful run. -/
def runScene (m : Mode) (root_path : String) (s : Scene) : Scene :=
  ⟨s.xggMaya, s.collections.map (processCollection m root_path)⟩

/-- All `xg.setAttr` calls of a successful run, in program order. -/
def runWrites (m : Mode) (root_path : String) (s : Scene) : List WriteEvent :=
  flatMapL (collectionWrites m root_path) s.collections

/-- Outcome of `_zspc_xgen_paths_run`: `completed` carries the rewritten
scene and the `xg.setAttr` log and is the only outcome that reaches the
final `DescriptionEditor.refresh("Full")`; `errorAborted` is the
`cmds.error(...)` + `return` path taken when `xgg.Maya` is falsy (no
attribute read or written, no refresh); `raised` is a propagated Python
exception. Both abnormal outcomes carry the untouched scene. -/
inductive RunOutcome where
  | completed (scene : Scene) (writes : List WriteEvent)
  | errorAborted (scene : Scene)
  | raised (e : PyError) (scene : Scene)
deriving DecidableEq, Repr

/-- `_zspc_xgen_paths_run` (source lines 119–181), in the source's order:
normalize the path (`TypeError` on a non-string, `IndexError` on an empty
normalized path), convert an `int` mode (`ValueError` when invalid), check
`xgg.Maya` (error dialog and early return when falsy), then rewrite every
collection and object attribute and refresh the UI. -/
def zspc_xgen_paths_run (mode : ModeArg) (project_path : PyValue) (s : Scene) : RunOutcome :=
  match project_path with
  | .str pp =>
    match normalizeRoot pp with
    | none => .raised .indexError s
    | some root_path =>
      match resolveMode mode with
      | none => .raised .valueError s
      | some m =>
        if s.xggMaya then
          .completed (runScene m root_path s) (runWrites m root_path s)
        else
          .errorAborted s
  | _ => .raised .typeError s

/-- The scene an outcome leaves behind. -/
def RunOutcome.scene : RunOutcome → Scene
  | .completed s _ => s
  | .errorAborted s => s
  | .raised _ s => s

/-! ### Observation helpers used by the theorems -/

/-- One object attribute together with the names that determine its computed
path: collection, description, object, attribute name and value. -/
structure AttrCtx where
  coll : String
  desc : String
  obj : String
  attr : String
  value : String
deriving DecidableEq, Repr

/-- All object attributes of a scene, in iteration order, with their
surrounding collection/description/object names. -/
def attrCtxs (s : Scene) : List AttrCtx :=
  flatMapL (fun c =>
    flatMapL (fun d =>
      flatMapL (fun o =>
        o.attrs.map (fun av => ⟨c.name, d.name, o.name, av.1, av.2⟩))
        d.objects)
      c.descriptions)
    s.collections

/-- The collection-level `xgDataPath` values of a scene, with the collection
names, in order. -/
def collPaths (s : Scene) : List (String × String) :=
  s.collections.map (fun c => (c.name, c.xgDataPath))

/-! ### Concrete scenes used as witnesses and counterexamples -/

/-- A minimal active scene with no collections. -/
def sceneSmall : Scene := ⟨true, []⟩

/-- A scene whose grooming subsystem is inactive. -/
def sceneInactive : Scene := ⟨false, [⟨"C", "v", []⟩]⟩

/-- One collection/description/object; the first attribute holds one
`"${DESC}"` directly preceded by the computed path, the second holds the
computed path alone. -/
def sceneRoundTrip : Scene :=
  ⟨true, [⟨"C", "${PROJECT}x", [⟨"D", [⟨"O",
    [("a1", "/p/xGen/collections/C/D${DESC}"), ("a2", "/p/xGen/collections/C/D")]⟩]⟩]⟩]⟩

/-- One attribute with a single `"${DESC}"` whose explicit form contains
the computed path exactly once. -/
def sceneRoundTripOk : Scene :=
  ⟨true, [⟨"C", "p", [⟨"D", [⟨"O", [("a", "x${DESC}y")]⟩]⟩]⟩]⟩

/-- One attribute containing the `"${DESC}"` placeholder. -/
def sceneExplicit : Scene :=
  ⟨true, [⟨"C", "q", [⟨"D", [⟨"O", [("files", "${DESC}/x.ptx")]⟩]⟩]⟩]⟩

/-- One attribute containing the computed absolute path. -/
def sceneRelative : Scene :=
  ⟨true, [⟨"C", "q", [⟨"D", [⟨"O", [("files", "/p/xGen/collections/C/D/x.ptx")]⟩]⟩]⟩]⟩

/-- Values containing no placeholder and no computed path. -/
def sceneFrame : Scene :=
  ⟨true, [⟨"C", "noToken", [⟨"D", [⟨"O", [("a", "plain")]⟩]⟩]⟩]⟩

/-- One attribute with the placeholder (written) and one without (skipped);
the collection `xgDataPath` contains no token at all. -/
def sceneWrites : Scene :=
  ⟨true, [⟨"C", "foo", [⟨"D", [⟨"O", [("a1", "${DESC}p"), ("a2", "zzz")]⟩]⟩]⟩]⟩

/-! ### Lemmas on the string primitives -/

theorem startsWithL_self_append (p w : List Char) : startsWithL p (p ++ w) = true := by
  induction p with
  | nil => rfl
  | cons a as ih => simp [startsWithL, ih]

theorem exists_append_of_startsWithL {p s : List Char} (h : startsWithL p s = true) :
    ∃ w, s = p ++ w := by
  induction p generalizing s with
  | nil => exact ⟨s, rfl⟩
  | cons a as ih =>
    cases s with
    | nil => simp [startsWithL] at h
    | cons b bs =>
      simp only [startsWithL] at h
      split at h
      · next hab =>
        obtain ⟨w, hw⟩ := ih h
        exact ⟨w, by simp [hab, hw]⟩
      · exact absurd h (by simp)

theorem containsSub_nil_needle (s : List Char) : containsSub s [] = true := by
  cases s <;> simp [containsSub, startsWithL]

theorem replaceAux_skip (old new : List Char) :
    ∀ (s : List Char) (k : Nat), replaceAux old new k s = replaceAux old new 0 (s.drop k) := by
  intro s
  induction s with
  | nil => intro k; cases k <;> rfl
  | cons c rest ih =>
    intro k
    cases k with
    | zero => rfl
    | succ j =>
      show replaceAux old new j rest = replaceAux old new 0 (rest.drop j)
      exact ih j

theorem replaceNE_cons_pos {old : List Char} (new : List Char) {c : Char} {rest : List Char}
    (h : startsWithL old (c :: rest) = true) :
    replaceNE old new (c :: rest) = new ++ replaceNE old new (rest.drop (old.length - 1)) := by
  show replaceAux old new 0 (c :: rest) = new ++ replaceAux old new 0 (rest.drop (old.length - 1))
  rw [show replaceAux old new 0 (c :: rest) =
    if startsWithL old (c :: rest) then new ++ replaceAux old new (old.length - 1) rest
    else c :: replaceAux old new 0 rest from rfl]
  rw [if_pos h, replaceAux_skip old new rest (old.length - 1)]

theorem replaceNE_cons_neg {old : List Char} (new : List Char) {c : Char} {rest : List Char}
    (h : startsWithL old (c :: rest) = false) :
    replaceNE old new (c :: rest) = c :: replaceNE old new rest := by
  show replaceAux old new 0 (c :: rest) = c :: replaceAux old new 0 rest
  rw [show replaceAux old new 0 (c :: rest) =
    if startsWithL old (c :: rest) then new ++ replaceAux old new (old.length - 1) rest
    else c :: replaceAux old new 0 rest from rfl]
  rw [if_neg (by rw [h]; exact Bool.false_ne_true)]

theorem countOcc_nil_eq (sub : List Char) :
    countOcc sub [] = if startsWithL sub [] then 1 else 0 := rfl

theorem countOcc_cons_eq (sub : List Char) (c : Char) (rest : List Char) :
    countOcc sub (c :: rest) =
      (if startsWithL sub (c :: rest) then 1 else 0) + countOcc sub rest := rfl

theorem countOcc_le_append (sub a b : List Char) :
    countOcc sub b ≤ countOcc sub (a ++ b) := by
  induction a with
  | nil => simp
  | cons c cs ih =>
    rw [List.cons_append, countOcc_cons_eq]
    omega

theorem countOcc_pos_self_append {old : List Char} (w : List Char) (hold : old ≠ []) :
    1 ≤ countOcc old (old ++ w) := by
  cases old with
  | nil => exact absurd rfl hold
  | cons o ot =>
    have hs : startsWithL (o :: ot) (o :: (ot ++ w)) = true := by
      have := startsWithL_self_append (o :: ot) w
      rwa [List.cons_append] at this
    rw [List.cons_append, countOcc_cons_eq, if_pos hs]
    omega

theorem containsSub_of_countOcc_pos {sub s : List Char} (h : 1 ≤ countOcc sub s) :
    containsSub s sub = true := by
  induction s with
  | nil =>
    rw [countOcc_nil_eq] at h
    by_cases hs : startsWithL sub [] = true
    · exact hs
    · rw [if_neg hs] at h
      exact absurd h (by omega)
  | cons c rest ih =>
    rw [countOcc_cons_eq] at h
    show (startsWithL sub (c :: rest) || containsSub rest sub) = true
    by_cases hs : startsWithL sub (c :: rest) = true
    · simp [hs]
    · rw [if_neg hs] at h
      simp [ih (by omega)]

theorem replaceNE_of_countOcc_eq_zero {old : List Char} (new : List Char) {s : List Char}
    (h : countOcc old s = 0) : replaceNE old new s = s := by
  induction s with
  | nil => rfl
  | cons c rest ih =>
    rw [countOcc_cons_eq] at h
    by_cases hs : startsWithL old (c :: rest) = true
    · rw [if_pos hs] at h
      exact absurd h (by omega)
    · rw [if_neg hs] at h
      have hs' : startsWithL old (c :: rest) = false := by
        simpa using hs
      rw [replaceNE_cons_neg new hs', ih (by omega)]

theorem replaceNE_of_containsSub_eq_false {old : List Char} (new : List Char) {s : List Char}
    (h : containsSub s old = false) : replaceNE old new s = s := by
  induction s with
  | nil => rfl
  | cons c rest ih =>
    simp only [containsSub, Bool.or_eq_false_iff] at h
    rw [replaceNE_cons_neg new h.1, ih h.2]

theorem exists_decomp_of_countOcc_eq_one {old s : List Char} (hold : old ≠ [])
    (h : countOcc old s = 1) : ∃ u w, s = u ++ old ++ w := by
  induction s with
  | nil =>
    rw [countOcc_nil_eq] at h
    by_cases hs : startsWithL old [] = true
    · obtain ⟨w, hw⟩ := exists_append_of_startsWithL hs
      exact absurd (List.append_eq_nil.mp hw.symm).1 hold
    · rw [if_neg hs] at h
      exact absurd h (by omega)
  | cons c rest ih =>
    by_cases hs : startsWithL old (c :: rest) = true
    · obtain ⟨w, hw⟩ := exists_append_of_startsWithL hs
      exact ⟨[], w, by simpa using hw⟩
    · rw [countOcc_cons_eq, if_neg hs] at h
      obtain ⟨u, w, hw⟩ := ih (by omega)
      exact ⟨c :: u, w, by simp [hw]⟩

theorem replaceNE_unique {old : List Char} (new : List Char) {u w : List Char} (hold : old ≠ [])
    (h : countOcc old (u ++ old ++ w) = 1) :
    replaceNE old new (u ++ old ++ w) = u ++ new ++ w := by
  induction u with
  | nil =>
    simp only [List.nil_append] at h ⊢
    cases old with
    | nil => exact absurd rfl hold
    | cons o ot =>
      have hs : startsWithL (o :: ot) (o :: (ot ++ w)) = true := by
        have := startsWithL_self_append (o :: ot) w
        rwa [List.cons_append] at this
      rw [List.cons_append, replaceNE_cons_pos new hs]
      have hdrop : (ot ++ w).drop ((o :: ot).length - 1) = w := by
        simp [List.drop_left]
      rw [hdrop]
      have hzero : countOcc (o :: ot) w = 0 := by
        rw [List.cons_append, countOcc_cons_eq, if_pos hs] at h
        have h2 := countOcc_le_append (o :: ot) ot w
        omega
      rw [replaceNE_of_countOcc_eq_zero new hzero]
  | cons c cs ih =>
    have e1 : (c :: cs) ++ old ++ w = c :: (cs ++ old ++ w) := by
      simp [List.cons_append]
    have e2 : (c :: cs) ++ new ++ w = c :: (cs ++ new ++ w) := by
      simp [List.cons_append]
    rw [e1] at h
    rw [e1, e2]
    have hpos : 1 ≤ countOcc old (cs ++ old ++ w) := by
      have h1 := @countOcc_pos_self_append old w hold
      have h2 := countOcc_le_append old cs (old ++ w)
      rw [← List.append_assoc] at h2
      omega
    have hs : startsWithL old (c :: (cs ++ old ++ w)) = false := by
      by_contra hc
      rw [Bool.not_eq_false] at hc
      rw [countOcc_cons_eq, if_pos hc] at h
      omega
    rw [countOcc_cons_eq, if_neg (by rw [hs]; exact Bool.false_ne_true)] at h
    rw [replaceNE_cons_neg new hs, ih (by omega)]

/-! ### String-level lemmas -/

theorem pyReplace_of_ne_nil {old : String} (s new : String) (h : old.data ≠ []) :
    pyReplace s old new = ⟨replaceNE old.data new.data s.data⟩ := by
  simp [pyReplace, h]

theorem data_ne_nil_of_not_pyIn {old s : String} (h : pyIn old s = false) :
    old.data ≠ [] := by
  intro hnil
  rw [pyIn, hnil, containsSub_nil_needle] at h
  exact absurd h (by simp)

theorem pyReplace_id_of_not_pyIn {old s : String} (new : String)
    (h : pyIn old s = false) : pyReplace s old new = s := by
  rw [pyReplace_of_ne_nil s new (data_ne_nil_of_not_pyIn h)]
  rw [replaceNE_of_containsSub_eq_false new.data h]

theorem pyIn_of_countOccStr_pos {old s : String} (h : 1 ≤ countOccStr old s) :
    pyIn old s = true :=
  containsSub_of_countOcc_pos h

theorem pyReplace_roundTrip {v old new : String} (hold : old.data ≠ [])
    (hnew : new.data ≠ [])
    (h1 : countOccStr old v = 1)
    (h2 : countOccStr new (pyReplace v old new) = 1) :
    pyReplace (pyReplace v old new) new old = v ∧
      pyIn old v = true ∧ pyIn new (pyReplace v old new) = true := by
  obtain ⟨u, w, hw⟩ := exists_decomp_of_countOcc_eq_one hold h1
  have hv1 : pyReplace v old new = ⟨u ++ new.data ++ w⟩ := by
    rw [pyReplace_of_ne_nil v new hold]
    have h1' : countOcc old.data (u ++ old.data ++ w) = 1 := by rwa [countOccStr, hw] at h1
    rw [hw, replaceNE_unique new.data hold h1']
  have h2' : countOcc new.data (u ++ new.data ++ w) = 1 := by
    rwa [countOccStr, hv1] at h2
  refine ⟨?_, ?_, ?_⟩
  · rw [hv1, pyReplace_of_ne_nil _ old hnew]
    show (⟨replaceNE new.data old.data (u ++ new.data ++ w)⟩ : String) = v
    rw [replaceNE_unique old.data hnew h2']
    show (⟨u ++ old.data ++ w⟩ : String) = v
    have hmk : (⟨u ++ old.data ++ w⟩ : String) = ⟨v.data⟩ := by rw [hw]
    exact hmk
  · exact pyIn_of_countOccStr_pos (by omega)
  · exact pyIn_of_countOccStr_pos (by omega)

theorem mkPath_data_ne_nil (r c d : String) : (mkPath r c d).data ≠ [] := by
  intro h
  have h' : (mkPath r c d).length = 0 := by
    simp [String.length, h]
  rw [mkPath] at h'
  simp only [String.length_append] at h'
  have hx : ("xGen/collections/" : String).length = 17 := rfl
  have hy : ("/" : String).length = 1 := rfl
  omega

theorem map_slashes_id {l : List Char} (h : ∀ c ∈ l, c ≠ '\\') :
    l.map (fun c => if c = '\\' then '/' else c) = l := by
  induction l with
  | nil => rfl
  | cons a as ih =>
    rw [List.map_cons]
    have ha : (if a = '\\' then '/' else a) = a := if_neg (h a (by simp))
    rw [ha, ih (fun c hc => h c (by simp [hc]))]

theorem path_to_forward_slashes_no_backslash (p : String) :
    ∀ ch ∈ (path_to_forward_slashes p).data, ch ≠ '\\' := by
  intro ch hch
  have hch' : ch ∈ p.data.map (fun c => if c = '\\' then '/' else c) := hch
  obtain ⟨a, ha, hfa⟩ := List.mem_map.mp hch'
  subst hfa
  by_cases hab : a = '\\'
  · rw [if_pos hab]
    decide
  · rw [if_neg hab]
    exact hab

theorem path_to_forward_slashes_fixpoint {q : String}
    (h : ∀ ch ∈ q.data, ch ≠ '\\') : path_to_forward_slashes q = q := by
  show (⟨q.data.map (fun c => if c = '\\' then '/' else c)⟩ : String) = q
  rw [map_slashes_id h]

theorem getLast?_append_single {α : Type} (l : List α) (a : α) :
    (l ++ [a]).getLast? = some a := by
  induction l with
  | nil => rfl
  | cons b bs ih =>
    cases bs with
    | nil => rfl
    | cons c cs =>
      rw [List.cons_append] at ih ⊢
      rw [List.cons_append]
      rw [List.getLast?_cons_cons]
      exact ih

/-! ### Lemmas on `flatMapL` and the scene traversal -/

theorem flatMapL_ext {α β : Type} (f g : α → List β) (l : List α)
    (h : ∀ a, f a = g a) : flatMapL f l = flatMapL g l :=
  congrArg (fun k => flatMapL k l) (funext h)

theorem flatMapL_map {α β γ : Type} (f : β → List γ) (g : α → β) (l : List α) :
    flatMapL f (l.map g) = flatMapL (fun a => f (g a)) l := by
  induction l with
  | nil => rfl
  | cons a as ih => simp [flatMapL, ih]

theorem map_flatMapL {α β γ : Type} (f : α → List β) (g : β → γ) (l : List α) :
    (flatMapL f l).map g = flatMapL (fun a => (f a).map g) l := by
  induction l with
  | nil => rfl
  | cons a as ih => simp [flatMapL, ih]

theorem filter_flatMapL {α β : Type} (f : α → List β) (p : β → Bool) (l : List α) :
    (flatMapL f l).filter p = flatMapL (fun a => (f a).filter p) l := by
  induction l with
  | nil => rfl
  | cons a as ih => simp [flatMapL, List.filter_append, ih]

theorem flatMapL_singleton {α β : Type} (g : α → β) (l : List α) :
    flatMapL (fun a => [g a]) l = l.map g := by
  induction l with
  | nil => rfl
  | cons a as ih => simp [flatMapL, ih]

theorem flatMapL_eq_nil {α β : Type} (f : α → List β) (l : List α)
    (h : ∀ a, f a = []) : flatMapL f l = [] := by
  induction l with
  | nil => rfl
  | cons a as ih => simp [flatMapL, h a, ih]

theorem filter_map_eq_nil_of {α β : Type} (p : β → Bool) (f : α → β) (l : List α)
    (hf : ∀ a, p (f a) = false) : (l.map f).filter p = [] := by
  induction l with
  | nil => rfl
  | cons a as ih => simp [List.filter_cons, hf a, ih]

theorem filter_map_eq_self_of {α β : Type} (p : β → Bool) (f : α → β) (l : List α)
    (hf : ∀ a, p (f a) = true) : (l.map f).filter p = l.map f := by
  induction l with
  | nil => rfl
  | cons a as ih => simp [List.filter_cons, hf a, ih]

/-- A successful run rewrites every object attribute value by `newAttrValue`
computed from its own collection and description names, keeping all names and
the hierarchy shape. -/
theorem attrCtxs_runScene (m : Mode) (root : String) (s : Scene) :
    attrCtxs (runScene m root s) =
      (attrCtxs s).map (fun x =>
        ⟨x.coll, x.desc, x.obj, x.attr, newAttrValue m root x.coll x.desc x.value⟩) := by
  unfold attrCtxs runScene
  rw [flatMapL_map, map_flatMapL]
  apply flatMapL_ext
  intro c
  simp only [processCollection]
  rw [flatMapL_map, map_flatMapL]
  apply flatMapL_ext
  intro d
  simp only [processDescription]
  rw [flatMapL_map, map_flatMapL]
  apply flatMapL_ext
  intro o
  simp only [processObject]
  rw [List.map_map, List.map_map]
  rfl

/-- A successful run rewrites every collection `xgDataPath` by
`newCollectionPath`, keeping collection names and order. -/
theorem collPaths_runScene (m : Mode) (root : String) (s : Scene) :
    collPaths (runScene m root s) =
      (collPaths s).map (fun p => (p.1, newCollectionPath m root p.2)) := by
  simp only [collPaths, runScene, List.map_map]
  rfl

theorem filter_isCollWrite_collectionWrites (m : Mode) (root : String) (c : XCollection) :
    (collectionWrites m root c).filter WriteEvent.isCollWrite =
      [WriteEvent.collWrite (newCollectionPath m root c.xgDataPath) c.name] := by
  unfold collectionWrites
  rw [List.filter_cons]
  simp only [WriteEvent.isCollWrite, if_true]
  rw [filter_flatMapL]
  rw [flatMapL_eq_nil]
  intro d
  unfold descriptionWrites
  rw [filter_flatMapL]
  apply flatMapL_eq_nil
  intro o
  unfold objectWrites
  exact filter_map_eq_nil_of _ _ _ (fun _ => rfl)

/-- The collection-level writes of a run: exactly one `xgDataPath` write per
collection, in order, whatever the values contain. -/
theorem collWrites_of_runWrites (m : Mode) (root : String) (s : Scene) :
    (runWrites m root s).filter WriteEvent.isCollWrite =
      s.collections.map (fun c =>
        WriteEvent.collWrite (newCollectionPath m root c.xgDataPath) c.name) := by
  unfold runWrites
  rw [filter_flatMapL]
  rw [flatMapL_ext _ (fun c => [WriteEvent.collWrite (newCollectionPath m root c.xgDataPath) c.name])
    s.collections (filter_isCollWrite_collectionWrites m root)]
  exact flatMapL_singleton _ _

/-- The object-level writes of a run: exactly the attributes whose value
contains the mode's search string, in order, with the substituted value. -/
theorem objWrites_of_runWrites (m : Mode) (root : String) (s : Scene) :
    (runWrites m root s).filter WriteEvent.isObjWrite =
      ((attrCtxs s).filter (fun x => attrWritten m root x.coll x.desc x.value)).map
        (fun x => WriteEvent.objWrite x.attr (newAttrValue m root x.coll x.desc x.value)
          x.coll x.desc x.obj) := by
  have hmid : (runWrites m root s).filter WriteEvent.isObjWrite =
      flatMapL (fun c => flatMapL (fun d =>
        flatMapL (objectWrites m root c.name d.name) d.objects) c.descriptions)
        s.collections := by
    unfold runWrites
    rw [filter_flatMapL]
    apply flatMapL_ext
    intro c
    unfold collectionWrites
    rw [List.filter_cons]
    simp only [WriteEvent.isObjWrite, Bool.false_eq_true, if_false]
    rw [filter_flatMapL]
    apply flatMapL_ext
    intro d
    unfold descriptionWrites
    rw [filter_flatMapL]
    apply flatMapL_ext
    intro o
    unfold objectWrites
    exact filter_map_eq_self_of _ _ _ (fun _ => rfl)
  rw [hmid]
  have hR : ((attrCtxs s).filter (fun x => attrWritten m root x.coll x.desc x.value)).map
      (fun x => WriteEvent.objWrite x.attr (newAttrValue m root x.coll x.desc x.value)
        x.coll x.desc x.obj) =
      flatMapL (fun c => flatMapL (fun d =>
        flatMapL (objectWrites m root c.name d.name) d.objects) c.descriptions)
        s.collections := by
    unfold attrCtxs
    rw [filter_flatMapL, map_flatMapL]
    apply flatMapL_ext
    intro c
    rw [filter_flatMapL, map_flatMapL]
    apply flatMapL_ext
    intro d
    rw [filter_flatMapL, map_flatMapL]
    apply flatMapL_ext
    intro o
    rw [List.filter_map, List.map_map]
    rfl
  rw [hR]

/-- A successful run of `_zspc_xgen_paths_run` (the grooming subsystem is
active and the path normalizes) completes with the rewritten scene and the
write log. -/
theorem run_eq_completed {s : Scene} {pp root : String} (m : Mode)
    (hM : s.xggMaya = true) (hroot : normalizeRoot pp = some root) :
    zspc_xgen_paths_run (.enumMode m) (.str pp) s =
      .completed (runScene m root s) (runWrites m root s) := by
  simp [zspc_xgen_paths_run, hroot, resolveMode, hM]

/-! ### The claims -/

/-- Claim C2: in EXPLICIT mode, every object attribute whose string value
contains `"${DESC}"` is rewritten to the result of replacing every
occurrence of `"${DESC}"` with the computed absolute path
`root_path ++ "xGen/collections/" ++ collection ++ "/" ++ description`,
where `root_path` is the normalized project path. -/
theorem claim_C2_explicit_substitution (s : Scene) (pp root : String) (s1 : Scene)
    (w : List WriteEvent) (i : Nat) (x : AttrCtx)
    (hM : s.xggMaya = true)
    (hroot : normalizeRoot pp = some root)
    (hrun : zspc_xgen_paths_run (.enumMode Mode.EXPLICIT) (.str pp) s = .completed s1 w)
    (hx : (attrCtxs s)[i]? = some x)
    (hv : pyIn descriptionExpressionString x.value = true) :
    (attrCtxs s1)[i]? = some ⟨x.coll, x.desc, x.obj, x.attr,
      pyReplace x.value descriptionExpressionString (mkPath root x.coll x.desc)⟩ := by
  have heq := run_eq_completed Mode.EXPLICIT hM hroot
  rw [hrun] at heq
  injection heq with h1 h2
  subst h1
  rw [attrCtxs_runScene, List.getElem?_map, hx]
  simp [newAttrValue, hv]

/-- Witness for C2 at a concrete scene and a backslashed project path. -/
theorem claim_C2_witness :
    sceneExplicit.xggMaya = true ∧
    normalizeRoot "P:\\proj" = some "P:/proj/" ∧
    pyIn descriptionExpressionString "${DESC}/x.ptx" = true ∧
    (attrCtxs (runScene Mode.EXPLICIT "P:/proj/" sceneExplicit))[0]? =
      some ⟨"C", "D", "O", "files",
        pyReplace "${DESC}/x.ptx" descriptionExpressionString (mkPath "P:/proj/" "C" "D")⟩ :=
  ⟨rfl, by decide, by decide,
    claim_C2_explicit_substitution sceneExplicit "P:\\proj" "P:/proj/"
      (runScene Mode.EXPLICIT "P:/proj/" sceneExplicit)
      (runWrites Mode.EXPLICIT "P:/proj/" sceneExplicit) 0
      ⟨"C", "D", "O", "files", "${DESC}/x.ptx"⟩ rfl (by decide) rfl rfl (by decide)⟩

/-- Claim C3: in RELATIVE mode, every object attribute whose string value
contains the computed absolute path is rewritten to the result of replacing
every occurrence of that path with `"${DESC}"` (the inverse substitution of
EXPLICIT mode). -/
theorem claim_C3_relative_substitution (s : Scene) (pp root : String) (s1 : Scene)
    (w : List WriteEvent) (i : Nat) (x : AttrCtx)
    (hM : s.xggMaya = true)
    (hroot : normalizeRoot pp = some root)
    (hrun : zspc_xgen_paths_run (.enumMode Mode.RELATIVE) (.str pp) s = .completed s1 w)
    (hx : (attrCtxs s)[i]? = some x)
    (hv : pyIn (mkPath root x.coll x.desc) x.value = true) :
    (attrCtxs s1)[i]? = some ⟨x.coll, x.desc, x.obj, x.attr,
      pyReplace x.value (mkPath root x.coll x.desc) descriptionExpressionString⟩ := by
  have heq := run_eq_completed Mode.RELATIVE hM hroot
  rw [hrun] at heq
  injection heq with h1 h2
  subst h1
  rw [attrCtxs_runScene, List.getElem?_map, hx]
  simp [newAttrValue, hv]

/-- Witness for C3 at a concrete scene holding the computed absolute path. -/
theorem claim_C3_witness :
    sceneRelative.xggMaya = true ∧
    normalizeRoot "/p/" = some "/p/" ∧
    pyIn (mkPath "/p/" "C" "D") "/p/xGen/collections/C/D/x.ptx" = true ∧
    (attrCtxs (runScene Mode.RELATIVE "/p/" sceneRelative))[0]? =
      some ⟨"C", "D", "O", "files",
        pyReplace "/p/xGen/collections/C/D/x.ptx" (mkPath "/p/" "C" "D")
          descriptionExpressionString⟩ :=
  ⟨rfl, by decide, by decide,
    claim_C3_relative_substitution sceneRelative "/p/" "/p/"
      (runScene Mode.RELATIVE "/p/" sceneRelative)
      (runWrites Mode.RELATIVE "/p/" sceneRelative) 0
      ⟨"C", "D", "O", "files", "/p/xGen/collections/C/D/x.ptx"⟩ rfl (by decide) rfl rfl
      (by decide)⟩

/-- Claim C4: path normalization (backslash-to-forward-slash conversion
followed by trailing-slash enforcement) is idempotent whenever it is
defined, and its output contains no backslash and ends with `'/'`. -/
theorem claim_C4_normalization (p q : String) (h : normalizeRoot p = some q) :
    normalizeRoot q = some q ∧ (∀ c ∈ q.data, c ≠ '\\') ∧ q.data.getLast? = some '/' := by
  simp only [normalizeRoot] at h
  cases hg : (path_to_forward_slashes p).data.getLast? with
  | none =>
    rw [hg] at h
    exact absurd h (by simp)
  | some c =>
    rw [hg] at h
    simp only [Option.some.injEq] at h
    have hnb := path_to_forward_slashes_no_backslash p
    by_cases hc : c = '/'
    · rw [if_pos hc] at h
      subst h
      subst hc
      refine ⟨?_, hnb, hg⟩
      simp only [normalizeRoot]
      rw [path_to_forward_slashes_fixpoint hnb, hg]
      simp
    · rw [if_neg hc] at h
      subst h
      have hdata : (path_to_forward_slashes p ++ "/").data =
          (path_to_forward_slashes p).data ++ ['/'] := String.data_append _ _
      have hnb' : ∀ ch ∈ (path_to_forward_slashes p ++ "/").data, ch ≠ '\\' := by
        intro ch hch
        rw [hdata] at hch
        rcases List.mem_append.mp hch with hl | hr
        · exact hnb ch hl
        · simp only [List.mem_singleton] at hr
          subst hr
          decide
      have hlast : (path_to_forward_slashes p ++ "/").data.getLast? = some '/' := by
        rw [hdata]
        exact getLast?_append_single _ _
      refine ⟨?_, hnb', hlast⟩
      simp only [normalizeRoot]
      rw [path_to_forward_slashes_fixpoint hnb', hlast]
      simp

/-- Witness for C4 at a concrete backslashed path. -/
theorem claim_C4_witness :
    normalizeRoot "C:\\proj" = some "C:/proj/" ∧
    normalizeRoot "C:/proj/" = some "C:/proj/" ∧
    (∀ c ∈ ("C:/proj/" : String).data, c ≠ '\\') ∧
    ("C:/proj/" : String).data.getLast? = some '/' := by
  have h := claim_C4_normalization "C:\\proj" "C:/proj/" (by decide)
  exact ⟨by decide, h.1, h.2.1, h.2.2⟩

/-- Claim C5: an attribute value (collection-level `xgDataPath` or
object-level attribute) containing neither the relevant placeholder token
nor the computed absolute path is left unchanged by a run in either mode. -/
theorem claim_C5_frame (s : Scene) (pp root : String) (m : Mode) (s1 : Scene)
    (w : List WriteEvent)
    (hM : s.xggMaya = true)
    (hroot : normalizeRoot pp = some root)
    (hrun : zspc_xgen_paths_run (.enumMode m) (.str pp) s = .completed s1 w) :
    (∀ (i : Nat) (n v : String), (collPaths s)[i]? = some (n, v) →
      pyIn projectExpressionString v = false → pyIn root v = false →
      (collPaths s1)[i]? = some (n, v)) ∧
    (∀ (i : Nat) (x : AttrCtx), (attrCtxs s)[i]? = some x →
      pyIn descriptionExpressionString x.value = false →
      pyIn (mkPath root x.coll x.desc) x.value = false →
      (attrCtxs s1)[i]? = some x) := by
  have heq := run_eq_completed m hM hroot
  rw [hrun] at heq
  injection heq with h1 h2
  subst h1
  constructor
  · intro i n v hi hp hr
    rw [collPaths_runScene, List.getElem?_map, hi]
    have hval : newCollectionPath m root v = v := by
      cases m with
      | EXPLICIT => exact pyReplace_id_of_not_pyIn root hp
      | RELATIVE => exact pyReplace_id_of_not_pyIn projectExpressionString hr
    simp [hval]
  · intro i x hi hd hpth
    rw [attrCtxs_runScene, List.getElem?_map, hi]
    have hval : newAttrValue m root x.coll x.desc x.value = x.value := by
      cases m with
      | EXPLICIT => simp [newAttrValue, hd]
      | RELATIVE => simp [newAttrValue, hpth]
    simp [hval]

/-- Witness for C5 at a concrete token-free scene, EXPLICIT mode. -/
theorem claim_C5_witness :
    pyIn projectExpressionString "noToken" = false ∧
    pyIn "/p/" "noToken" = false ∧
    (collPaths (runScene Mode.EXPLICIT "/p/" sceneFrame))[0]? = some ("C", "noToken") ∧
    pyIn descriptionExpressionString "plain" = false ∧
    pyIn (mkPath "/p/" "C" "D") "plain" = false ∧
    (attrCtxs (runScene Mode.EXPLICIT "/p/" sceneFrame))[0]? =
      some ⟨"C", "D", "O", "a", "plain"⟩ :=
  ⟨by decide, by decide,
    (claim_C5_frame sceneFrame "/p/" "/p/" Mode.EXPLICIT
      (runScene Mode.EXPLICIT "/p/" sceneFrame)
      (runWrites Mode.EXPLICIT "/p/" sceneFrame) rfl (by decide) rfl).1
      0 "C" "noToken" rfl (by decide) (by decide),
    by decide, by decide,
    (claim_C5_frame sceneFrame "/p/" "/p/" Mode.EXPLICIT
      (runScene Mode.EXPLICIT "/p/" sceneFrame)
      (runWrites Mode.EXPLICIT "/p/" sceneFrame) rfl (by decide) rfl).2
      0 ⟨"C", "D", "O", "a", "plain"⟩ rfl (by decide) (by decide)⟩

/-- Claim C6: when the grooming subsystem is inactive (`xgg.Maya` falsy) the
run surfaces the host error and aborts before reading or writing any
attribute and before the UI refresh: the outcome is `errorAborted` with the
scene untouched. -/
theorem claim_C6_inactive_abort (s : Scene) (m : Mode) (pp root : String)
    (hM : s.xggMaya = false) (hroot : normalizeRoot pp = some root) :
    zspc_xgen_paths_run (.enumMode m) (.str pp) s = .errorAborted s := by
  simp [zspc_xgen_paths_run, hroot, resolveMode, hM]

/-- Witness for C6 at a concrete inactive scene. -/
theorem claim_C6_witness :
    sceneInactive.xggMaya = false ∧
    normalizeRoot "/p/" = some "/p/" ∧
    zspc_xgen_paths_run (.enumMode Mode.EXPLICIT) (.str "/p/") sceneInactive =
      .errorAborted sceneInactive :=
  ⟨rfl, by decide,
    claim_C6_inactive_abort sceneInactive Mode.EXPLICIT "/p/" "/p/" rfl (by decide)⟩

/-- Claim C7: every non-string `path` argument makes
`_path_to_forward_slashes` raise `TypeError`, and hence makes the run
operation raise `TypeError` before touching the scene. -/
theorem claim_C7_type_error (v : PyValue) (mode : ModeArg) (s : Scene)
    (hv : ∀ t : String, v ≠ PyValue.str t) :
    path_to_forward_slashes_dyn v = .error .typeError ∧
    zspc_xgen_paths_run mode v s = .raised .typeError s := by
  cases v with
  | str t => exact absurd rfl (hv t)
  | intVal n => exact ⟨rfl, rfl⟩
  | boolVal b => exact ⟨rfl, rfl⟩
  | noneVal => exact ⟨rfl, rfl⟩

/-- Witness for C7 at the integer value 3. -/
theorem claim_C7_witness :
    path_to_forward_slashes_dyn (PyValue.intVal 3) = .error .typeError ∧
    zspc_xgen_paths_run (.enumMode Mode.EXPLICIT) (PyValue.intVal 3) sceneSmall =
      .raised .typeError sceneSmall :=
  claim_C7_type_error (PyValue.intVal 3) (.enumMode Mode.EXPLICIT) sceneSmall
    (fun _ h => PyValue.noConfusion h)

/-- Claim C8: with the empty string as `project_path` the run raises
`IndexError` (from `root_path[-1]`) before any attribute mutation, for every
mode argument and scene: trailing-slash enforcement is partial and needs a
non-empty normalized path. -/
theorem claim_C8_empty_path (mode : ModeArg) (s : Scene) :
    zspc_xgen_paths_run mode (.str "") s = .raised .indexError s ∧
    normalizeRoot "" = none :=
  ⟨rfl, rfl⟩

/-- Claim C1 counterexample: the EXPLICIT-then-RELATIVE round trip is not an
identity on every value with exactly one placeholder/path instance. At root
path `"/p/"` (its own normalization), attribute `a1` holds exactly one
`"${DESC}"` (preceded by the computed path) and attribute `a2` holds exactly
one computed-path instance and no placeholder; the round trip turns them
into `"${DESC}${DESC}"` and `"${DESC}"`, both different from the originals. -/
theorem claim_C1_counterexample :
    countOccStr descriptionExpressionString "/p/xGen/collections/C/D${DESC}" = 1 ∧
    countOccStr descriptionExpressionString "/p/xGen/collections/C/D" +
      countOccStr (mkPath "/p/" "C" "D") "/p/xGen/collections/C/D" = 1 ∧
    zspc_xgen_paths_run (.enumMode Mode.EXPLICIT) (.str "/p/") sceneRoundTrip =
      .completed (runScene Mode.EXPLICIT "/p/" sceneRoundTrip)
        (runWrites Mode.EXPLICIT "/p/" sceneRoundTrip) ∧
    zspc_xgen_paths_run (.enumMode Mode.RELATIVE) (.str "/p/")
        (runScene Mode.EXPLICIT "/p/" sceneRoundTrip) =
      .completed (runScene Mode.RELATIVE "/p/" (runScene Mode.EXPLICIT "/p/" sceneRoundTrip))
        (runWrites Mode.RELATIVE "/p/" (runScene Mode.EXPLICIT "/p/" sceneRoundTrip)) ∧
    attrCtxs (runScene Mode.RELATIVE "/p/" (runScene Mode.EXPLICIT "/p/" sceneRoundTrip)) =
      [⟨"C", "D", "O", "a1", "${DESC}${DESC}"⟩, ⟨"C", "D", "O", "a2", "${DESC}"⟩] ∧
    ("${DESC}${DESC}" : String) ≠ "/p/xGen/collections/C/D${DESC}" ∧
    ("${DESC}" : String) ≠ "/p/xGen/collections/C/D" :=
  ⟨by decide, by decide, rfl, rfl, by decide, by decide, by decide⟩

/-- Claim C1 (amended): running EXPLICIT then RELATIVE with the same
normalized root path restores an attribute value that contains exactly one
occurrence of `"${DESC}"`, provided the explicit rewrite contains exactly
one occurrence of the computed path (the counterexample shows the proviso
is needed when the path already occurs in the value, or occurs alone). -/
theorem claim_C1_roundTrip_amended (s : Scene) (pp root : String) (s1 s2 : Scene)
    (w1 w2 : List WriteEvent) (i : Nat) (x : AttrCtx)
    (hM : s.xggMaya = true)
    (hroot : normalizeRoot pp = some root)
    (hrun1 : zspc_xgen_paths_run (.enumMode Mode.EXPLICIT) (.str pp) s = .completed s1 w1)
    (hrun2 : zspc_xgen_paths_run (.enumMode Mode.RELATIVE) (.str pp) s1 = .completed s2 w2)
    (hx : (attrCtxs s)[i]? = some x)
    (h1 : countOccStr descriptionExpressionString x.value = 1)
    (h2 : countOccStr (mkPath root x.coll x.desc)
      (pyReplace x.value descriptionExpressionString (mkPath root x.coll x.desc)) = 1) :
    (attrCtxs s2)[i]? = some x := by
  have heq1 := run_eq_completed Mode.EXPLICIT hM hroot
  rw [hrun1] at heq1
  injection heq1 with e1 _
  subst e1
  have hM1 : (runScene Mode.EXPLICIT root s).xggMaya = true := hM
  have heq2 := run_eq_completed Mode.RELATIVE hM1 hroot
  rw [hrun2] at heq2
  injection heq2 with e2 _
  subst e2
  have hD : descriptionExpressionString.data ≠ [] := by decide
  have hP : (mkPath root x.coll x.desc).data ≠ [] := mkPath_data_ne_nil root x.coll x.desc
  obtain ⟨hback, hin1, hin2⟩ := pyReplace_roundTrip hD hP h1 h2
  rw [attrCtxs_runScene, attrCtxs_runScene, List.map_map, List.getElem?_map, hx]
  have hexp : newAttrValue Mode.EXPLICIT root x.coll x.desc x.value =
      pyReplace x.value descriptionExpressionString (mkPath root x.coll x.desc) := by
    simp [newAttrValue, hin1]
  have hrel : newAttrValue Mode.RELATIVE root x.coll x.desc
      (pyReplace x.value descriptionExpressionString (mkPath root x.coll x.desc)) =
      x.value := by
    simp only [newAttrValue]
    rw [if_pos]
    · exact hback
    · simpa using hin2
  simp only [Function.comp, Option.map_some', hexp, hrel]

/-- Witness for the amended C1 at a concrete scene where the provisos hold. -/
theorem claim_C1_amended_witness :
    countOccStr descriptionExpressionString "x${DESC}y" = 1 ∧
    countOccStr (mkPath "/p/" "C" "D")
      (pyReplace "x${DESC}y" descriptionExpressionString (mkPath "/p/" "C" "D")) = 1 ∧
    (attrCtxs (runScene Mode.RELATIVE "/p/"
        (runScene Mode.EXPLICIT "/p/" sceneRoundTripOk)))[0]? =
      some ⟨"C", "D", "O", "a", "x${DESC}y"⟩ :=
  ⟨by decide, by decide,
    claim_C1_roundTrip_amended sceneRoundTripOk "/p/" "/p/"
      (runScene Mode.EXPLICIT "/p/" sceneRoundTripOk)
      (runScene Mode.RELATIVE "/p/" (runScene Mode.EXPLICIT "/p/" sceneRoundTripOk))
      (runWrites Mode.EXPLICIT "/p/" sceneRoundTripOk)
      (runWrites Mode.RELATIVE "/p/" (runScene Mode.EXPLICIT "/p/" sceneRoundTripOk))
      0 ⟨"C", "D", "O", "a", "x${DESC}y"⟩ rfl (by decide) rfl rfl rfl (by decide) (by decide)⟩

/-- Claim C9 counterexample: with the empty string as project path, an
out-of-range integer mode raises `IndexError`, not `ValueError`, because the
path is normalized before the mode is converted. -/
theorem claim_C9_counterexample :
    zspc_xgen_paths_run (.intMode 2) (.str "") sceneSmall =
      .raised .indexError sceneSmall ∧
    RunOutcome.raised PyError.indexError sceneSmall ≠
      RunOutcome.raised PyError.valueError sceneSmall :=
  ⟨rfl, by decide⟩

/-- Claim C9 (amended): the integer 0 (resp. 1) as mode behaves identically
to the EXPLICIT (resp. RELATIVE) enum mode on every project path and scene,
and any other integer raises `ValueError` before any attribute is read or
written, provided path normalization succeeds first (the counterexample
shows the empty path raises `IndexError` instead). -/
theorem claim_C9_int_mode_amended :
    (∀ (pp : PyValue) (s : Scene),
      zspc_xgen_paths_run (.intMode 0) pp s =
        zspc_xgen_paths_run (.enumMode Mode.EXPLICIT) pp s) ∧
    (∀ (pp : PyValue) (s : Scene),
      zspc_xgen_paths_run (.intMode 1) pp s =
        zspc_xgen_paths_run (.enumMode Mode.RELATIVE) pp s) ∧
    (∀ (n : Int) (pp root : String) (s : Scene), n ≠ 0 → n ≠ 1 →
      normalizeRoot pp = some root →
      zspc_xgen_paths_run (.intMode n) (.str pp) s = .raised .valueError s) := by
  refine ⟨?_, ?_, ?_⟩
  · intro pp s
    cases pp with
    | str t =>
      cases hn : normalizeRoot t with
      | none => simp [zspc_xgen_paths_run, hn]
      | some root => simp [zspc_xgen_paths_run, hn, resolveMode]
    | intVal n => rfl
    | boolVal b => rfl
    | noneVal => rfl
  · intro pp s
    cases pp with
    | str t =>
      cases hn : normalizeRoot t with
      | none => simp [zspc_xgen_paths_run, hn]
      | some root => simp [zspc_xgen_paths_run, hn, resolveMode]
    | intVal n => rfl
    | boolVal b => rfl
    | noneVal => rfl
  · intro n pp root s h0 h1 hroot
    simp [zspc_xgen_paths_run, hroot, resolveMode, h0, h1]

/-- Witness for the amended C9: int 0 equals EXPLICIT on a concrete input,
and int 2 with a normalizable path raises `ValueError`. -/
theorem claim_C9_witness :
    zspc_xgen_paths_run (.intMode 0) (.str "/p/") sceneSmall =
      zspc_xgen_paths_run (.enumMode Mode.EXPLICIT) (.str "/p/") sceneSmall ∧
    ((2 : Int) ≠ 0 ∧ (2 : Int) ≠ 1 ∧ normalizeRoot "/p/" = some "/p/") ∧
    zspc_xgen_paths_run (.intMode 2) (.str "/p/") sceneSmall =
      .raised .valueError sceneSmall :=
  ⟨claim_C9_int_mode_amended.1 (.str "/p/") sceneSmall,
    ⟨by decide, by decide, by decide⟩,
    claim_C9_int_mode_amended.2.2 2 "/p/" "/p/" sceneSmall (by decide) (by decide)
      (by decide)⟩

/-- Claim C10: on a successful run the collection-level `xgDataPath` of
every collection is written exactly once, in order, whether or not it
contains any token, while an object attribute is written exactly when its
value contains the mode's search string (the computed path in RELATIVE
mode, `"${DESC}"` in EXPLICIT mode). -/
theorem claim_C10_writes (s : Scene) (pp root : String) (m : Mode) (s1 : Scene)
    (w : List WriteEvent)
    (hM : s.xggMaya = true)
    (hroot : normalizeRoot pp = some root)
    (hrun : zspc_xgen_paths_run (.enumMode m) (.str pp) s = .completed s1 w) :
    w.filter WriteEvent.isCollWrite =
      s.collections.map (fun c =>
        WriteEvent.collWrite (newCollectionPath m root c.xgDataPath) c.name) ∧
    w.filter WriteEvent.isObjWrite =
      ((attrCtxs s).filter (fun x => attrWritten m root x.coll x.desc x.value)).map
        (fun x => WriteEvent.objWrite x.attr (newAttrValue m root x.coll x.desc x.value)
          x.coll x.desc x.obj) := by
  have heq := run_eq_completed m hM hroot
  rw [hrun] at heq
  injection heq with h1 h2
  subst h2
  exact ⟨collWrites_of_runWrites m root s, objWrites_of_runWrites m root s⟩

/-- Witness for C10: the token-free `xgDataPath` is still written once; the
attribute with the placeholder is written and the plain one is not. -/
theorem claim_C10_witness :
    (runWrites Mode.EXPLICIT "/p/" sceneWrites).filter WriteEvent.isCollWrite =
      [WriteEvent.collWrite "foo" "C"] ∧
    (runWrites Mode.EXPLICIT "/p/" sceneWrites).filter WriteEvent.isObjWrite =
      [WriteEvent.objWrite "a1" "/p/xGen/collections/C/Dp" "C" "D" "O"] := by
  have h := claim_C10_writes sceneWrites "/p/" "/p/" Mode.EXPLICIT
    (runScene Mode.EXPLICIT "/p/" sceneWrites)
    (runWrites Mode.EXPLICIT "/p/" sceneWrites) rfl (by decide) rfl
  exact ⟨h.1.trans (by decide), h.2.trans (by decide)⟩

end XGenExplicitPaths
